import Mathlib

/-!
Verification of the release-notes generator core: the categorizer and
markdown renderer from src/app.py, and the markdown-to-Notion-block
converter from src/notion_integration.py.

Modelling conventions (shallow embedding):
* Python strings are modelled as lists of characters (Chars below).
* Python dicts that are used as ordered association structures
  (CATEGORY_MAPPINGS, STATUS_EMOJIS, the categorized-issues dict) are
  modelled as association lists in declaration/insertion order, which
  matches Python 3.7+ dict semantics.
* The regex scan-loops of the block converter are transcribed as
  deterministic leftmost-match searchers plus fuel-bounded loops; the
  fuel (length of the remaining text plus one) strictly dominates the
  number of loop iterations, since every regex match consumes at least
  one character.  Fuel-adequacy lemmas below show the fuel bound is
  never reached.
* Python str.strip() is modelled over the ASCII whitespace characters;
  the regex class backslash-d is modelled as the ASCII digits.  No input
  relevant to the specification contains the exotic unicode cases.
-/
abbrev Chars := List Char

/-- Whitespace characters removed by str.strip(). -/
def isPySpace (c : Char) : Bool :=
  c == ' ' || c == '\t' || c == '\n' || c == '\r' || c == '\x0b' || c == '\x0c'

/-- Python str.strip(): drop whitespace from both ends. -/
def pyStrip (s : Chars) : Chars :=
  ((s.dropWhile isPySpace).reverse.dropWhile isPySpace).reverse

/-- s does not contain a newline character. -/
def noNl (s : Chars) : Prop := '\n' ∉ s

instance (s : Chars) : Decidable (noNl s) := by unfold noNl; infer_instance

/-- Python str.split(c): split on every occurrence, keeping empty pieces. -/
def splitOnChar (c : Char) : Chars → List Chars
  | [] => [[]]
  | x :: xs =>
    if x = c then [] :: splitOnChar c xs
    else
      match splitOnChar c xs with
      | [] => [[x]]
      | t :: ts => (x :: t) :: ts

/-- First-match association-list lookup (Python dict membership plus
indexing, with the list in dict declaration order). -/
def assocFind (k : Chars) : List (Chars × Chars) → Option Chars
  | [] => none
  | (a, b) :: rest => if k = a then some b else assocFind k rest

/-- STATUS_EMOJIS from src/app.py. -/
def STATUS_EMOJIS : List (Chars × Chars) :=
  [("Completed".data, "✅".data),
   ("Done".data, "✅".data),
   ("Fixed".data, "✅".data),
   ("Resolved".data, "✅".data),
   ("Started".data, "🔶".data),
   ("In Progress".data, "🔶".data),
   ("Code Review".data, "🔶".data),
   ("Ready for Product".data, "🔍".data),
   ("Product Review".data, "🔍".data),
   ("Ready for Testing".data, "🔍".data),
   ("Testing".data, "🔍".data),
   ("Backlog".data, "◻️".data),
   ("Unstarted".data, "◻️".data),
   ("Todo".data, "◻️".data)]

/-- CATEGORY_MAPPINGS from src/app.py, in declaration order. -/
def CATEGORY_MAPPINGS : List (Chars × Chars) :=
  [("Bug".data, "🐛 Bug Fixes".data),
   ("Feature".data, "✨ New Features".data),
   ("Improvement".data, "⚡ Improvements".data),
   ("Documentation".data, "📚 Documentation".data),
   ("Refactor".data, "🔧 Refactoring".data),
   ("Performance".data, "🚀 Performance Improvements".data)]

/-- DOMAIN_AREAS from src/app.py. -/
def DOMAIN_AREAS : List Chars :=
  ["Activity".data, "Administration".data, "Assets".data, "End of Trial".data,
   "Forms".data, "Manage Area".data, "Media Player".data, "Notifications".data,
   "Permissions".data, "Reporting".data, "Study Events / Visit".data,
   "Study Procedures / Assessment".data, "Subjects".data,
   "Trial Configuration".data, "Uploader".data]

/-- EXCLUDED_STATUSES from src/app.py. -/
def EXCLUDED_STATUSES : List Chars :=
  ["Canceled".data, "Cancelled".data, "Duplicate".data]

/-- Default LINEAR_WORKSPACE_URL (the os.getenv fallback in src/app.py;
the environment variable is external configuration, out of scope). -/
def LINEAR_WORKSPACE_URL : Chars := "https://linear.app/your-workspace".data

/-- An issue record as returned by the tracker client: identifier, title,
optional URL, lifecycle state name, and the ordered list of label names. -/
structure Issue where
  identifier : Chars
  title : Chars
  url : Option Chars
  state : Chars
  labels : List Chars
deriving DecidableEq

/-- A rendered-issue entry, built once per issue by the renderer. -/
structure Entry where
  title : Chars
  identifier : Chars
  url : Chars
  domain_area : Option Chars
  status_emoji : Chars
deriving DecidableEq

/-- The label scan of determine_category: first label of the issue that is
a key of CATEGORY_MAPPINGS wins; default is the Other Changes bucket. -/
def categoryOfLabels : List Chars → Chars
  | [] => "Other Changes".data
  | l :: rest =>
    match assocFind l CATEGORY_MAPPINGS with
    | some c => c
    | none => categoryOfLabels rest

/-- determine_category from src/app.py. -/
def determine_category (issue : Issue) : Chars :=
  categoryOfLabels issue.labels

/-- The label scan of find_domain_area. -/
def domainOfLabels : List Chars → Option Chars
  | [] => none
  | l :: rest => if l ∈ DOMAIN_AREAS then some l else domainOfLabels rest

/-- find_domain_area from src/app.py. -/
def find_domain_area (issue : Issue) : Option Chars :=
  domainOfLabels issue.labels

/-- get_status_emoji from src/app.py (dict .get with default ""). -/
def get_status_emoji (issue : Issue) : Chars :=
  (assocFind issue.state STATUS_EMOJIS).getD []

/-- should_exclude_issue from src/app.py. -/
def should_exclude_issue (issue : Issue) : Bool :=
  EXCLUDED_STATUSES.any (fun s => decide (s = issue.state))

/-- URL resolution: the issue's own URL when present and non-empty
(Python truthiness of issue['url']), else the synthesized workspace URL. -/
def resolveUrl (i : Issue) : Chars :=
  match i.url with
  | some u =>
    if u = [] then LINEAR_WORKSPACE_URL ++ "/issue/".data ++ i.identifier else u
  | none => LINEAR_WORKSPACE_URL ++ "/issue/".data ++ i.identifier

/-- The per-issue record appended to a category bucket. -/
def mkEntry (i : Issue) : Entry :=
  ⟨i.title, i.identifier, resolveUrl i, find_domain_area i, get_status_emoji i⟩

/-- The keys of the categorized-issues dict, in insertion order:
the CATEGORY_MAPPINGS values followed by "Other Changes". -/
def CATEGORY_KEYS : List Chars :=
  CATEGORY_MAPPINGS.map Prod.snd ++ ["Other Changes".data]

/-- Append an entry to the bucket of the given category
(dict item append; the category is always a key, see mem_CATEGORY_KEYS). -/
def bucketAppend (cat : Chars) (e : Entry) :
    List (Chars × List Entry) → List (Chars × List Entry)
  | [] => []
  | (k, es) :: rest =>
    if k = cat then (k, es ++ [e]) :: rest else (k, es) :: bucketAppend cat e rest

/-- The categorized-issues dict of generate_release_notes: pre-allocated
empty buckets for every category key, then each issue appended to the
bucket of its category, in input order. -/
def categorize (issues : List Issue) : List (Chars × List Entry) :=
  issues.foldl
    (fun acc i => bucketAppend (determine_category i) (mkEntry i) acc)
    (CATEGORY_KEYS.map (fun k => (k, ([] : List Entry))))

/-- The bullet-line body after the "- " marker:
emoji, bold title, linked identifier, optional domain tag. -/
def bullet_body (e : Entry) : Chars :=
  e.status_emoji ++ " **".data ++ e.title ++ "** ([".data ++ e.identifier ++
    "](".data ++ e.url ++ "))".data ++
    (match e.domain_area with
     | some d => " [".data ++ d ++ "]".data
     | none => [])

/-- A full bullet line (without the trailing newline). -/
def bullet_core (e : Entry) : Chars := "- ".data ++ bullet_body e

/-- A bullet line as appended to the markdown (with its newline). -/
def render_bullet (e : Entry) : Chars := bullet_core e ++ "\n".data

/-- The markdown chunk of one category: nothing when the bucket is empty,
else the level-2 heading, a blank line, the bullet lines, a blank line. -/
def render_category (k : Chars) (es : List Entry) : Chars :=
  if es.isEmpty then []
  else "## ".data ++ k ++ "\n\n".data ++ (es.map render_bullet).flatten ++ "\n".data

/-- generate_release_notes from src/app.py.  The datetime.now() timestamp
string is the explicit parameter ts (the only impurity of the source). -/
def generate_release_notes (issues : List Issue) (version ts : Chars) : Chars :=
  if issues = [] then "No issues found for this release.".data
  else
    "# 🚀 Release Notes - ".data ++ version ++ "\n\n".data ++
    "*Generated on ".data ++ ts ++ "*\n\n".data ++
    (((issues.filter (fun i => !(should_exclude_issue i))
        |> categorize).map (fun p => render_category p.1 p.2)).flatten)

/-- A rich-text span: plain content with an optional link and the bold and
italic flags.  A link span carries no bold or italic in this design. -/
structure Span where
  content : Chars
  link : Option Chars
  bold : Bool
  italic : Bool
deriving DecidableEq

/-- A plain span. -/
def plainSpan (s : Chars) : Span := ⟨s, none, false, false⟩

/-- A link span. -/
def linkSpan (s u : Chars) : Span := ⟨s, some u, false, false⟩

/-- A bold span. -/
def boldSpan (s : Chars) : Span := ⟨s, none, true, false⟩

/-- An italic span. -/
def italicSpan (s : Chars) : Span := ⟨s, none, false, true⟩

/-- A Notion block, as emitted by the converter: headings at level 1 to 3,
bulleted and numbered list items, and paragraphs. -/
inductive Block where
  | heading : Nat → List Span → Block
  | bullet : List Span → Block
  | numbered : List Span → Block
  | para : List Span → Block
deriving DecidableEq

/-- Match the link pattern at the start of the text: an opening bracket, a
non-empty greedy run without a closing bracket, a closing bracket, an
opening parenthesis, a non-empty greedy run without a closing parenthesis,
a closing parenthesis.  Returns the label, the url and the rest.  Since the
character classes exclude their closing delimiter, greedy matching is
deterministic and needs no backtracking. -/
def matchLinkAt : Chars → Option (Chars × Chars × Chars)
  | [] => none
  | c :: s =>
    if c = '[' then
      let t := s.takeWhile (fun x => !(x == ']'))
      if t = [] then none
      else
        match s.dropWhile (fun x => !(x == ']')) with
        | d0 :: d1 :: s2 =>
          if d0 = ']' then
            if d1 = '(' then
              let u := s2.takeWhile (fun x => !(x == ')'))
              if u = [] then none
              else
                match s2.dropWhile (fun x => !(x == ')')) with
                | e0 :: r => if e0 = ')' then some (t, u, r) else none
                | [] => none
            else none
          else none
        | _ => none
    else none

/-- re.search for the link pattern: leftmost match, returning the text
before the match, the label, the url and the rest. -/
def searchLink : Chars → Option (Chars × Chars × Chars × Chars)
  | [] => none
  | c :: s =>
    match matchLinkAt (c :: s) with
    | some (t, u, r) => some ([], t, u, r)
    | none =>
      match searchLink s with
      | some (b, t, u, r) => some (c :: b, t, u, r)
      | none => none

/-- Match the bold pattern (double asterisks around a non-empty run
without asterisks) at the start of the text. -/
def matchBoldAt : Chars → Option (Chars × Chars)
  | [] => none
  | [_] => none
  | c0 :: c1 :: s =>
    if c0 = '*' then
      if c1 = '*' then
        let t := s.takeWhile (fun x => !(x == '*'))
        if t = [] then none
        else
          match s.dropWhile (fun x => !(x == '*')) with
          | d0 :: d1 :: r =>
            if d0 = '*' then if d1 = '*' then some (t, r) else none else none
          | _ => none
      else none
    else none

/-- re.search for the bold pattern: leftmost match. -/
def searchBold : Chars → Option (Chars × Chars × Chars)
  | [] => none
  | c :: s =>
    match matchBoldAt (c :: s) with
    | some (t, r) => some ([], t, r)
    | none =>
      match searchBold s with
      | some (b, t, r) => some (c :: b, t, r)
      | none => none

/-- Match the italic pattern (single asterisks around a non-empty run
without asterisks) at the start of the text. -/
def matchItalicAt : Chars → Option (Chars × Chars)
  | [] => none
  | c :: s =>
    if c = '*' then
      let t := s.takeWhile (fun x => !(x == '*'))
      if t = [] then none
      else
        match s.dropWhile (fun x => !(x == '*')) with
        | d0 :: r => if d0 = '*' then some (t, r) else none
        | [] => none
    else none

/-- re.search for the italic pattern: leftmost match. -/
def searchItalic : Chars → Option (Chars × Chars × Chars)
  | [] => none
  | c :: s =>
    match matchItalicAt (c :: s) with
    | some (t, r) => some ([], t, r)
    | none =>
      match searchItalic s with
      | some (b, t, r) => some (c :: b, t, r)
      | none => none

/-- The while-loop of _parse_italic_formatting, fuel-bounded: before each
italic match the preceding run becomes a plain span; after the last match
the remaining non-empty tail becomes a plain span. -/
def parse_italic_fmt : Nat → Chars → List Span
  | _, [] => []
  | 0, _ => []
  | Nat.succ fuel, s =>
    match searchItalic s with
    | none => [plainSpan s]
    | some (b, t, r) =>
      (if b = [] then [] else [plainSpan b]) ++ [italicSpan t] ++
        parse_italic_fmt fuel r

/-- _parse_italic_formatting from src/notion_integration.py. -/
def parse_italic_formatting (s : Chars) : List Span :=
  parse_italic_fmt (s.length + 1) s

/-- The while-loop of _parse_inline_formatting, fuel-bounded: the run
before each bold match goes through the italic parser, and so does the
tail after the last match. -/
def parse_inline_fmt : Nat → Chars → List Span
  | _, [] => []
  | 0, _ => []
  | Nat.succ fuel, s =>
    match searchBold s with
    | none => parse_italic_formatting s
    | some (b, t, r) =>
      parse_italic_formatting b ++ [boldSpan t] ++ parse_inline_fmt fuel r

/-- _parse_inline_formatting from src/notion_integration.py. -/
def parse_inline_formatting (s : Chars) : List Span :=
  parse_inline_fmt (s.length + 1) s

/-- The while-loop of _parse_rich_text, fuel-bounded: the run before each
link match goes through the inline-formatting parser, and so does the tail
after the last match. -/
def parse_rich_f : Nat → Chars → List Span
  | 0, _ => []
  | Nat.succ fuel, s =>
    match searchLink s with
    | none => parse_inline_formatting s
    | some (b, t, u, r) =>
      parse_inline_formatting b ++ [linkSpan t u] ++ parse_rich_f fuel r

/-- _parse_rich_text from src/notion_integration.py. -/
def parse_rich_text (s : Chars) : List Span :=
  parse_rich_f (s.length + 1) s

/-- re.match of the numbered-list pattern (one or more digits, a period, a
space) together with the re.sub removal of the matched prefix. -/
def matchNumAt (s : Chars) : Option Chars :=
  let d := s.takeWhile (fun c => c.isDigit)
  if d = [] then none
  else
    match s.dropWhile (fun c => c.isDigit) with
    | '.' :: ' ' :: r => some r
    | _ => none

/-- The if-elif chain of _markdown_to_notion_blocks classifying one
already-stripped non-blank line, in source order. -/
def classify_line (l : Chars) : Block :=
  if l.take 2 = "# ".data then Block.heading 1 (parse_rich_text (l.drop 2))
  else if l.take 3 = "## ".data then Block.heading 2 (parse_rich_text (l.drop 3))
  else if l.take 4 = "### ".data then Block.heading 3 (parse_rich_text (l.drop 4))
  else if l.take 2 = "- ".data then Block.bullet (parse_rich_text (l.drop 2))
  else
    match matchNumAt l with
    | some r => Block.numbered (parse_rich_text r)
    | none => Block.para (parse_rich_text l)

/-- One iteration of the line loop of _markdown_to_notion_blocks: strip
the line, skip it when blank, else classify it. -/
def line_to_block (line : Chars) : Option Block :=
  let l := pyStrip line
  if l = [] then none else some (classify_line l)

/-- _markdown_to_notion_blocks from src/notion_integration.py. -/
def markdown_to_notion_blocks (md : Chars) : List Block :=
  (splitOnChar '\n' md).filterMap line_to_block

/-- The right strip (trailing whitespace removal). -/
def rstripChars (l : Chars) : Chars := (l.reverse.dropWhile isPySpace).reverse

/-- The optional URL of an issue contains no newline when present. -/
def urlOk : Option Chars → Prop
  | none => True
  | some u => noNl u

instance : ∀ o : Option Chars, Decidable (urlOk o)
  | none => .isTrue trivial
  | some u => inferInstanceAs (Decidable (noNl u))

/-- An issue is clean when its title, identifier and URL (if any) contain
no newline character. -/
def cleanIssue (i : Issue) : Prop :=
  noNl i.title ∧ noNl i.identifier ∧ urlOk i.url

instance (i : Issue) : Decidable (cleanIssue i) := by
  unfold cleanIssue; infer_instance

/-- The four lines preceding the category sections: the level-1 release
heading, a blank line, the timestamp line, a blank line. -/
def header_lines (v t : Chars) : List Chars :=
  ["# 🚀 Release Notes - ".data ++ v, [], "*Generated on ".data ++ t ++ "*".data, []]

/-- The category buckets of a run of the renderer, at the issue level: for
each category key, in fixed enumeration order, the non-excluded issues of
that category in input order. -/
def buckets (issues : List Issue) : List (Chars × List Issue) :=
  CATEGORY_KEYS.map (fun k =>
    (k, (issues.filter (fun i => !(should_exclude_issue i))).filter
          (fun i => decide (determine_category i = k))))

/-- The body lines of the rendered markdown: for each non-empty bucket a
level-2 heading line, a blank line, one bullet line per issue in input
order, and a closing blank line. -/
def body_lines (issues : List Issue) : List Chars :=
  ((buckets issues).filter (fun p => !(p.2.isEmpty))).flatMap
    (fun p => ("## ".data ++ p.1) :: [] ::
      (p.2.map (fun i => bullet_core (mkEntry i)) ++ [[]]))

/-- The body blocks of the converted document: one level-2 heading block
per non-empty bucket, in fixed enumeration order, then one bullet block
per issue of the bucket in input order. -/
def body_blocks (issues : List Issue) : List Block :=
  ((buckets issues).filter (fun p => !(p.2.isEmpty))).flatMap
    (fun p => Block.heading 2 (parse_rich_text p.1) ::
      p.2.map (fun i => Block.bullet (parse_rich_text (bullet_body (mkEntry i)))))

/-- An issue whose title injects a spurious markdown heading through the
renderer (a newline followed by a category heading line). -/
def badIssue : Issue :=
  ⟨"GP-1".data, "A\n## ✨ New Features\nB".data, some "https://x/GP-1".data,
    "Done".data, ["Bug".data]⟩

/-- A well-formed demonstration issue. -/
def demoIssue : Issue :=
  ⟨"GP-1".data, "Fix login bug".data, some "https://x/GP-1".data, "Done".data,
    ["Bug".data, "Subjects".data]⟩

/-- Recognizer for level-2 heading blocks. -/
def isHeading2 : Block → Bool
  | Block.heading 2 _ => true
  | _ => false

/-- An issue in an excluded lifecycle state. -/
def excludedIssue : Issue :=
  ⟨"GP-9".data, "Dup".data, none, "Duplicate".data, []⟩

/-- Modelled from the claim wording: first-match scan in the declaration
order of the label-to-category table. -/
def spec_classify_category (labels : List Chars) : Chars :=
  ((CATEGORY_MAPPINGS.find? (fun p => decide (p.1 ∈ labels))).map Prod.snd).getD
    "Other Changes".data

/-- l is a key of the label-to-category table. -/
def is_category_label (l : Chars) : Prop :=
  (assocFind l CATEGORY_MAPPINGS).isSome = true

instance (l : Chars) : Decidable (is_category_label l) := by
  unfold is_category_label; infer_instance

/-- An issue carrying the Feature label before the Bug label. -/
def issueFB : Issue :=
  ⟨"GP-2".data, "T".data, none, "Done".data, ["Feature".data, "Bug".data]⟩

/-- The same issue with its label list reversed. -/
def issueBF : Issue :=
  ⟨"GP-2".data, "T".data, none, "Done".data, ["Bug".data, "Feature".data]⟩

/-- Modelled from the claim wording: prefix precedence with the
three-hash check first, then the numbered-list pattern, then the bullet
marker (the code tests the prefixes in the opposite, mutually exclusive
order and tests the bullet marker before the numbered pattern). -/
def claim_classify (l : Chars) : Block :=
  if l.take 4 = "### ".data then Block.heading 3 (parse_rich_text (l.drop 4))
  else if l.take 3 = "## ".data then Block.heading 2 (parse_rich_text (l.drop 3))
  else if l.take 2 = "# ".data then Block.heading 1 (parse_rich_text (l.drop 2))
  else
    match matchNumAt l with
    | some r => Block.numbered (parse_rich_text r)
    | none =>
      if l.take 2 = "- ".data then Block.bullet (parse_rich_text (l.drop 2))
      else Block.para (parse_rich_text l)

/-- A numbered-looking line using a tab instead of a space after the
period: it matches the claimed whitespace pattern but not the code's
literal-space pattern. -/
def tabNumLine : Chars := "1.\tfoo".data

/-- The claimed numbered-list pattern: digits, a period, any whitespace. -/
def claimNumPattern (s : Chars) : Bool :=
  let d := s.takeWhile (fun c => c.isDigit)
  if d = [] then false
  else
    match s.dropWhile (fun c => c.isDigit) with
    | '.' :: c :: _ => isPySpace c
    | _ => false

@[simp] lemma data_two_nl : "\n\n".data = ['\n', '\n'] := rfl

@[simp] lemma data_star_two_nl : "*\n\n".data = ['*', '\n', '\n'] := rfl

@[simp] lemma data_star : "*".data = ['*'] := rfl

@[simp] lemma data_one_nl : "\n".data = ['\n'] := rfl

@[simp] lemma data_h1 : "# ".data = ['#', ' '] := rfl

@[simp] lemma data_h2 : "## ".data = ['#', '#', ' '] := rfl

@[simp] lemma data_h3 : "### ".data = ['#', '#', '#', ' '] := rfl

@[simp] lemma data_dash : "- ".data = ['-', ' '] := rfl

lemma noNl_ne {l : Chars} (h : noNl l) : ∀ x ∈ l, ¬(x = '\n') := by
  intro x hx he
  exact h (he ▸ hx)

lemma noNl_append {a b : Chars} (ha : noNl a) (hb : noNl b) : noNl (a ++ b) := by
  unfold noNl at *
  simp only [List.mem_append]
  rintro (h | h)
  · exact ha h
  · exact hb h

lemma splitOnChar_cons_self (c : Char) (r : Chars) :
    splitOnChar c (c :: r) = [] :: splitOnChar c r := by
  simp [splitOnChar]

lemma splitOnChar_ne_nil (c : Char) (l : Chars) : splitOnChar c l ≠ [] := by
  induction l with
  | nil => simp [splitOnChar]
  | cons x xs ih =>
    by_cases hx : x = c
    · simp [splitOnChar, hx]
    · simp only [splitOnChar, if_neg hx]
      cases h : splitOnChar c xs with
      | nil => simp
      | cons t ts => simp

lemma splitOnChar_append_cons {c : Char} {l : Chars} (r : Chars)
    (h : ∀ x ∈ l, ¬(x = c)) :
    splitOnChar c (l ++ c :: r) = l :: splitOnChar c r := by
  induction l with
  | nil => simpa using splitOnChar_cons_self c r
  | cons x xs ih =>
    have hx : ¬(x = c) := h x (by simp)
    have ih2 := ih (fun y hy => h y (by simp [hy]))
    simp only [List.cons_append, splitOnChar, if_neg hx, List.append_eq, ih2]

lemma splitOnChar_of_not_mem {c : Char} {l : Chars} (h : ∀ x ∈ l, ¬(x = c)) :
    splitOnChar c l = [l] := by
  induction l with
  | nil => rfl
  | cons x xs ih =>
    have hx : ¬(x = c) := h x (by simp)
    have ih2 := ih (fun y hy => h y (by simp [hy]))
    simp only [splitOnChar, if_neg hx, ih2]

lemma pyStrip_eq_self {s : Chars} (hh : isPySpace (s.headD 'a') = false)
    (hl : isPySpace (s.reverse.headD 'a') = false) : pyStrip s = s := by
  unfold pyStrip
  have h1 : s.dropWhile isPySpace = s := by
    cases s with
    | nil => rfl
    | cons x xs =>
      simp only [List.headD_cons] at hh
      simp [List.dropWhile_cons, hh]
  rw [h1]
  have h2 : s.reverse.dropWhile isPySpace = s.reverse := by
    cases hr : s.reverse with
    | nil => rfl
    | cons y ys =>
      rw [hr] at hl
      simp only [List.headD_cons] at hl
      simp [List.dropWhile_cons, hl]
  rw [h2, List.reverse_reverse]

lemma pyStrip_cons {a : Char} (l : Chars) (ha : isPySpace a = false) :
    pyStrip (a :: l) = a :: rstripChars l := by
  unfold pyStrip rstripChars
  have h1 : (a :: l).dropWhile isPySpace = a :: l := by
    simp [List.dropWhile_cons, ha]
  rw [h1, List.reverse_cons, List.dropWhile_append]
  by_cases h : l.reverse.dropWhile isPySpace = []
  · simp [h, List.dropWhile_cons, ha]
  · simp [h, List.isEmpty_iff]

lemma rstripChars_cons {x : Char} {l : Chars}
    (h : ∃ c ∈ l, isPySpace c = false) :
    rstripChars (x :: l) = x :: rstripChars l := by
  unfold rstripChars
  have hne : l.reverse.dropWhile isPySpace ≠ [] := by
    rw [Ne, List.dropWhile_eq_nil_iff]
    push_neg
    obtain ⟨c, hc, hcf⟩ := h
    exact ⟨c, List.mem_reverse.mpr hc, by simp [hcf]⟩
  rw [List.reverse_cons, List.dropWhile_append]
  simp [List.isEmpty_iff, hne]

lemma line_to_block_nil : line_to_block [] = none := rfl

lemma line_to_block_h2_key : ∀ k ∈ CATEGORY_KEYS,
    line_to_block ("## ".data ++ k) = some (Block.heading 2 (parse_rich_text k)) := by
  decide

lemma line_to_block_bullet (e : Entry) :
    line_to_block (bullet_core e) = some (Block.bullet (parse_rich_text (bullet_body e))) := by
  have hcore : bullet_core e = '-' :: ' ' :: bullet_body e := by
    simp [bullet_core]
  have hstrip : pyStrip (bullet_core e) = bullet_core e := by
    apply pyStrip_eq_self
    · rw [hcore]; rfl
    · rcases hd : e.domain_area with _ | d
      · have : (bullet_core e).reverse.headD 'a' = ')' := by
          simp [bullet_core, bullet_body, hd, List.reverse_append,
            show "))".data = [')', ')'] from rfl]
        rw [this]; rfl
      · have : (bullet_core e).reverse.headD 'a' = ']' := by
          simp [bullet_core, bullet_body, hd, List.reverse_append,
            show "]".data = [']'] from rfl]
        rw [this]; rfl
  rw [hcore] at hstrip
  rw [hcore]
  simp only [line_to_block, hstrip]
  simp [classify_line]

lemma line_to_block_ts (t : Chars) :
    line_to_block ("*Generated on ".data ++ t ++ "*".data) =
      some (Block.para (parse_rich_text ("*Generated on ".data ++ t ++ "*".data))) := by
  have hline : "*Generated on ".data ++ t ++ "*".data =
      '*' :: ("Generated on ".data ++ t ++ ['*']) := by
    simp [show "*Generated on ".data = '*' :: "Generated on ".data from rfl]
  have hstrip : pyStrip ("*Generated on ".data ++ t ++ "*".data) =
      "*Generated on ".data ++ t ++ "*".data := by
    apply pyStrip_eq_self
    · rw [hline]; rfl
    · have : ("*Generated on ".data ++ t ++ "*".data).reverse.headD 'a' = '*' := by
        simp [List.reverse_append]
      rw [this]; rfl
  simp only [line_to_block, hstrip]
  rw [hline]
  simp [classify_line, matchNumAt, List.takeWhile_cons,
    show ('*').isDigit = false from rfl]

lemma line_to_block_h1v (v : Chars) :
    ∃ rt, line_to_block ("# 🚀 Release Notes - ".data ++ v) =
      some (Block.heading 1 rt) := by
  have hline : "# 🚀 Release Notes - ".data ++ v =
      '#' :: ' ' :: ("🚀 Release Notes - ".data ++ v) := by
    simp [show "# 🚀 Release Notes - ".data =
      '#' :: ' ' :: "🚀 Release Notes - ".data from rfl]
  have hmem : ∃ c ∈ "🚀 Release Notes - ".data ++ v, isPySpace c = false := by
    refine ⟨'🚀', ?_, rfl⟩
    apply List.mem_append_left
    decide
  have hstrip : pyStrip ("# 🚀 Release Notes - ".data ++ v) =
      '#' :: ' ' :: rstripChars ("🚀 Release Notes - ".data ++ v) := by
    rw [hline, pyStrip_cons _ (show isPySpace '#' = false from rfl)]
    have h2 : rstripChars (' ' :: ("🚀 Release Notes - ".data ++ v)) =
        ' ' :: rstripChars ("🚀 Release Notes - ".data ++ v) := rstripChars_cons hmem
    rw [h2]
  simp only [line_to_block, hstrip]
  exact ⟨parse_rich_text (rstripChars ("🚀 Release Notes - ".data ++ v)), by
    simp [classify_line]⟩

lemma matchItalicAt_length {s t r : Chars}
    (h : matchItalicAt s = some (t, r)) : r.length + 3 ≤ s.length := by
  cases s with
  | nil => simp [matchItalicAt] at h
  | cons c s0 =>
    simp only [matchItalicAt] at h
    by_cases hc : c = '*'
    · rw [if_pos hc] at h
      by_cases ht : s0.takeWhile (fun x => !(x == '*')) = []
      · simp [ht] at h
      · rw [if_neg ht] at h
        cases hd : s0.dropWhile (fun x => !(x == '*')) with
        | nil => rw [hd] at h; simp at h
        | cons d0 r0 =>
          rw [hd] at h
          by_cases hd0 : d0 = '*'
          · subst hd0
            simp at h
            obtain ⟨h1, h2⟩ := h
            have hs : s0.takeWhile (fun x => !(x == '*')) ++
                s0.dropWhile (fun x => !(x == '*')) = s0 :=
              List.takeWhile_append_dropWhile _ _
            rw [hd] at hs
            have hlen := congrArg List.length hs
            have htl : 1 ≤ (s0.takeWhile (fun x => !(x == '*'))).length :=
              List.length_pos.mpr ht
            simp only [List.length_append, List.length_cons] at hlen
            subst h2
            simp only [List.length_cons]
            omega
          · simp [hd0] at h
    · rw [if_neg hc] at h; simp at h

lemma matchBoldAt_length {s t r : Chars}
    (h : matchBoldAt s = some (t, r)) : r.length + 5 ≤ s.length := by
  cases s with
  | nil => simp [matchBoldAt] at h
  | cons c0 s1 =>
    cases s1 with
    | nil => simp [matchBoldAt] at h
    | cons c1 s0 =>
      simp only [matchBoldAt] at h
      by_cases hc0 : c0 = '*'
      · rw [if_pos hc0] at h
        by_cases hc1 : c1 = '*'
        · rw [if_pos hc1] at h
          by_cases ht : s0.takeWhile (fun x => !(x == '*')) = []
          · simp [ht] at h
          · rw [if_neg ht] at h
            cases hd : s0.dropWhile (fun x => !(x == '*')) with
            | nil => rw [hd] at h; simp at h
            | cons d0 r1 =>
              cases r1 with
              | nil => rw [hd] at h; simp at h
              | cons d1 r0 =>
                rw [hd] at h
                by_cases hd0 : d0 = '*'
                · by_cases hd1 : d1 = '*'
                  · subst hd0; subst hd1
                    simp at h
                    obtain ⟨h1, h2⟩ := h
                    have hs : s0.takeWhile (fun x => !(x == '*')) ++
                        s0.dropWhile (fun x => !(x == '*')) = s0 :=
                      List.takeWhile_append_dropWhile _ _
                    rw [hd] at hs
                    have hlen := congrArg List.length hs
                    have htl : 1 ≤ (s0.takeWhile (fun x => !(x == '*'))).length :=
                      List.length_pos.mpr ht
                    simp only [List.length_append, List.length_cons] at hlen
                    subst h2
                    simp only [List.length_cons]
                    omega
                  · simp [hd0, hd1] at h
                · simp [hd0] at h
        · rw [if_neg hc1] at h; simp at h
      · rw [if_neg hc0] at h; simp at h

lemma matchLinkAt_length {s t u r : Chars}
    (h : matchLinkAt s = some (t, u, r)) : r.length + 6 ≤ s.length := by
  cases s with
  | nil => simp [matchLinkAt] at h
  | cons c s0 =>
    simp only [matchLinkAt] at h
    by_cases hc : c = '['
    · rw [if_pos hc] at h
      by_cases ht : s0.takeWhile (fun x => !(x == ']')) = []
      · simp [ht] at h
      · rw [if_neg ht] at h
        cases hd : s0.dropWhile (fun x => !(x == ']')) with
        | nil => rw [hd] at h; simp at h
        | cons d0 r1 =>
          cases r1 with
          | nil => rw [hd] at h; simp at h
          | cons d1 s2 =>
            rw [hd] at h
            by_cases hd0 : d0 = ']'
            · by_cases hd1 : d1 = '('
              · subst hd0; subst hd1
                simp only [if_pos] at h
                by_cases hu : s2.takeWhile (fun x => !(x == ')')) = []
                · simp [hu] at h
                · rw [if_neg hu] at h
                  cases he : s2.dropWhile (fun x => !(x == ')')) with
                  | nil => rw [he] at h; simp at h
                  | cons e0 r0 =>
                    rw [he] at h
                    by_cases he0 : e0 = ')'
                    · subst he0
                      simp at h
                      obtain ⟨h1, h2, h3⟩ := h
                      have hs1 : s0.takeWhile (fun x => !(x == ']')) ++
                          s0.dropWhile (fun x => !(x == ']')) = s0 :=
                        List.takeWhile_append_dropWhile _ _
                      have hs2 : s2.takeWhile (fun x => !(x == ')')) ++
                          s2.dropWhile (fun x => !(x == ')')) = s2 :=
                        List.takeWhile_append_dropWhile _ _
                      rw [hd] at hs1
                      rw [he] at hs2
                      have hlen1 := congrArg List.length hs1
                      have hlen2 := congrArg List.length hs2
                      have htl : 1 ≤ (s0.takeWhile (fun x => !(x == ']'))).length :=
                        List.length_pos.mpr ht
                      have hul : 1 ≤ (s2.takeWhile (fun x => !(x == ')'))).length :=
                        List.length_pos.mpr hu
                      simp only [List.length_append, List.length_cons] at hlen1 hlen2
                      subst h3
                      simp only [List.length_cons]
                      omega
                    · simp [he0] at h
              · simp [hd0, hd1] at h
            · simp [hd0] at h
    · rw [if_neg hc] at h; simp at h

lemma searchItalic_length : ∀ {s b t r : Chars},
    searchItalic s = some (b, t, r) → r.length + 3 ≤ s.length := by
  intro s
  induction s with
  | nil => intro b t r h; simp [searchItalic] at h
  | cons c s0 ih =>
    intro b t r h
    simp only [searchItalic] at h
    cases hm : matchItalicAt (c :: s0) with
    | some p =>
      obtain ⟨t0, r0⟩ := p
      rw [hm] at h
      simp at h
      obtain ⟨h1, h2, h3⟩ := h
      subst h3
      exact matchItalicAt_length hm
    | none =>
      rw [hm] at h
      cases hs : searchItalic s0 with
      | none => rw [hs] at h; simp at h
      | some q =>
        obtain ⟨b0, t0, r0⟩ := q
        rw [hs] at h
        simp at h
        obtain ⟨h1, h2, h3⟩ := h
        subst h3
        have := ih hs
        simp only [List.length_cons]
        omega

lemma searchBold_length : ∀ {s b t r : Chars},
    searchBold s = some (b, t, r) → r.length + 5 ≤ s.length := by
  intro s
  induction s with
  | nil => intro b t r h; simp [searchBold] at h
  | cons c s0 ih =>
    intro b t r h
    simp only [searchBold] at h
    cases hm : matchBoldAt (c :: s0) with
    | some p =>
      obtain ⟨t0, r0⟩ := p
      rw [hm] at h
      simp at h
      obtain ⟨h1, h2, h3⟩ := h
      subst h3
      exact matchBoldAt_length hm
    | none =>
      rw [hm] at h
      cases hs : searchBold s0 with
      | none => rw [hs] at h; simp at h
      | some q =>
        obtain ⟨b0, t0, r0⟩ := q
        rw [hs] at h
        simp at h
        obtain ⟨h1, h2, h3⟩ := h
        subst h3
        have := ih hs
        simp only [List.length_cons]
        omega

lemma searchLink_length : ∀ {s b t u r : Chars},
    searchLink s = some (b, t, u, r) → r.length + 6 ≤ s.length := by
  intro s
  induction s with
  | nil => intro b t u r h; simp [searchLink] at h
  | cons c s0 ih =>
    intro b t u r h
    simp only [searchLink] at h
    cases hm : matchLinkAt (c :: s0) with
    | some p =>
      obtain ⟨t0, u0, r0⟩ := p
      rw [hm] at h
      simp at h
      obtain ⟨h1, h2, h3, h4⟩ := h
      subst h4
      exact matchLinkAt_length hm
    | none =>
      rw [hm] at h
      cases hs : searchLink s0 with
      | none => rw [hs] at h; simp at h
      | some q =>
        obtain ⟨b0, t0, u0, r0⟩ := q
        rw [hs] at h
        simp at h
        obtain ⟨h1, h2, h3, h4⟩ := h
        subst h4
        have := ih hs
        simp only [List.length_cons]
        omega

lemma parse_italic_fmt_eq : ∀ (f : Nat) (s : Chars), s.length < f →
    parse_italic_fmt f s = parse_italic_formatting s := by
  intro f
  induction f using Nat.strong_induction_on with
  | _ f ih =>
    intro s hs
    cases s with
    | nil =>
      cases f with
      | zero => simp at hs
      | succ f0 => simp [parse_italic_fmt, parse_italic_formatting]
    | cons c s0 =>
      cases f with
      | zero => simp at hs
      | succ f0 =>
        cases hm : searchItalic (c :: s0) with
        | none => simp [parse_italic_fmt, parse_italic_formatting, hm]
        | some p =>
          obtain ⟨b, t, r⟩ := p
          have hr := searchItalic_length hm
          simp only [List.length_cons] at hr hs
          have h1 : parse_italic_fmt f0 r = parse_italic_formatting r :=
            ih f0 (by omega) r (by omega)
          have h2 : parse_italic_fmt (s0.length + 1) r = parse_italic_formatting r :=
            ih (s0.length + 1) (by omega) r (by omega)
          simp [parse_italic_fmt, parse_italic_formatting, hm, h1, h2]

lemma parse_inline_fmt_eq : ∀ (f : Nat) (s : Chars), s.length < f →
    parse_inline_fmt f s = parse_inline_formatting s := by
  intro f
  induction f using Nat.strong_induction_on with
  | _ f ih =>
    intro s hs
    cases s with
    | nil =>
      cases f with
      | zero => simp at hs
      | succ f0 => simp [parse_inline_fmt, parse_inline_formatting]
    | cons c s0 =>
      cases f with
      | zero => simp at hs
      | succ f0 =>
        cases hm : searchBold (c :: s0) with
        | none => simp [parse_inline_fmt, parse_inline_formatting, hm]
        | some p =>
          obtain ⟨b, t, r⟩ := p
          have hr := searchBold_length hm
          simp only [List.length_cons] at hr hs
          have h1 : parse_inline_fmt f0 r = parse_inline_formatting r :=
            ih f0 (by omega) r (by omega)
          have h2 : parse_inline_fmt (s0.length + 1) r = parse_inline_formatting r :=
            ih (s0.length + 1) (by omega) r (by omega)
          simp [parse_inline_fmt, parse_inline_formatting, hm, h1, h2]

lemma parse_rich_f_succ (f : Nat) (s : Chars) :
    parse_rich_f (f + 1) s =
      match searchLink s with
      | none => parse_inline_formatting s
      | some (b, t, u, r) =>
        parse_inline_formatting b ++ [linkSpan t u] ++ parse_rich_f f r := rfl

lemma parse_rich_f_eq : ∀ (f : Nat) (s : Chars), s.length < f →
    parse_rich_f f s = parse_rich_text s := by
  intro f
  induction f using Nat.strong_induction_on with
  | _ f ih =>
    intro s hs
    cases f with
    | zero => simp at hs
    | succ f0 =>
      cases hm : searchLink s with
      | none =>
        rw [parse_rich_f_succ, hm,
          show parse_rich_text s = parse_rich_f (s.length + 1) s from rfl,
          parse_rich_f_succ, hm]
      | some p =>
        obtain ⟨b, t, u, r⟩ := p
        have hr := searchLink_length hm
        have h1 : parse_rich_f f0 r = parse_rich_text r :=
          ih f0 (by omega) r (by omega)
        have h2 : parse_rich_f s.length r = parse_rich_text r :=
          ih s.length (by omega) r (by omega)
        rw [parse_rich_f_succ, hm,
          show parse_rich_text s = parse_rich_f (s.length + 1) s from rfl,
          parse_rich_f_succ, hm]
        show parse_inline_formatting b ++ [linkSpan t u] ++ parse_rich_f f0 r =
          parse_inline_formatting b ++ [linkSpan t u] ++ parse_rich_f s.length r
        rw [h1, h2]

lemma assocFind_mem : ∀ {ps : List (Chars × Chars)} {k v : Chars},
    assocFind k ps = some v → (k, v) ∈ ps := by
  intro ps
  induction ps with
  | nil => intro k v h; simp [assocFind] at h
  | cons p ps ih =>
    intro k v h
    obtain ⟨a, b⟩ := p
    simp only [assocFind] at h
    by_cases hk : k = a
    · rw [if_pos hk] at h
      simp only [Option.some.injEq] at h
      subst hk; subst h
      simp
    · rw [if_neg hk] at h
      exact List.mem_cons_of_mem _ (ih h)

lemma assocFind_isSome_of_mem : ∀ {ps : List (Chars × Chars)} {k v : Chars},
    (k, v) ∈ ps → (assocFind k ps).isSome = true := by
  intro ps
  induction ps with
  | nil => intro k v h; simp at h
  | cons p ps ih =>
    intro k v h
    obtain ⟨a, b⟩ := p
    simp only [assocFind]
    by_cases hk : k = a
    · simp [hk]
    · rw [if_neg hk]
      rcases List.mem_cons.mp h with he | hm
      · exact absurd (congrArg Prod.fst he) hk
      · exact ih hm

lemma assocFind_eq_of_nodup : ∀ {ps : List (Chars × Chars)},
    (ps.map Prod.fst).Nodup → ∀ {k v : Chars}, (k, v) ∈ ps →
    assocFind k ps = some v := by
  intro ps
  induction ps with
  | nil => intro _ k v h; simp at h
  | cons p ps ih =>
    intro hnd k v h
    obtain ⟨a, b⟩ := p
    simp only [List.map_cons, List.nodup_cons] at hnd
    simp only [assocFind]
    rcases List.mem_cons.mp h with he | hm
    · cases he
      simp
    · by_cases hk : k = a
      · subst hk
        exact absurd (List.mem_map_of_mem Prod.fst hm) hnd.1
      · rw [if_neg hk]
        exact ih hnd.2 hm

lemma categoryOfLabels_mem_keys (ls : List Chars) :
    categoryOfLabels ls ∈ CATEGORY_KEYS := by
  induction ls with
  | nil => decide
  | cons l rest ih =>
    simp only [categoryOfLabels]
    cases hm : assocFind l CATEGORY_MAPPINGS with
    | none => exact ih
    | some c =>
      exact List.mem_append_left _ (List.mem_map_of_mem Prod.snd (assocFind_mem hm))

lemma bucketAppend_map : ∀ {keys : List Chars} {g : Chars → List Entry}
    {c : Chars} {e : Entry}, c ∈ keys → keys.Nodup →
    bucketAppend c e (keys.map (fun k => (k, g k))) =
      keys.map (fun k => (k, if k = c then g k ++ [e] else g k)) := by
  intro keys
  induction keys with
  | nil => intro g c e hmem _; simp at hmem
  | cons k0 ks ih =>
    intro g c e hmem hnd
    simp only [List.map_cons, bucketAppend]
    by_cases hk : k0 = c
    · rw [if_pos hk]
      subst hk
      congr 1
      · simp
      · apply List.map_congr_left
        intro k hkks
        have hne : ¬(k = k0) := fun he => (List.nodup_cons.mp hnd).1 (he ▸ hkks)
        simp [hne]
    · rw [if_neg hk]
      have hmem2 : c ∈ ks := by
        rcases List.mem_cons.mp hmem with he | hm
        · exact absurd he.symm hk
        · exact hm
      rw [ih hmem2 (List.nodup_cons.mp hnd).2]
      simp [hk]

lemma categorize_eq (issues : List Issue) :
    categorize issues = CATEGORY_KEYS.map (fun k =>
      (k, (issues.filter (fun i => decide (determine_category i = k))).map mkEntry)) := by
  induction issues using List.reverseRecOn with
  | nil => simp [categorize]
  | append_singleton l a ih =>
    have h1 : categorize (l ++ [a]) =
        bucketAppend (determine_category a) (mkEntry a) (categorize l) := by
      simp [categorize, List.foldl_append]
    have hmem : determine_category a ∈ CATEGORY_KEYS :=
      categoryOfLabels_mem_keys a.labels
    rw [h1, ih, bucketAppend_map hmem (show CATEGORY_KEYS.Nodup by decide)]
    apply List.map_congr_left
    intro k hk
    by_cases hck : k = determine_category a
    · subst hck
      simp [List.filter_append, List.filter_cons]
    · have hne : ¬(determine_category a = k) := fun he => hck he.symm
      simp [hck, hne, List.filter_append, List.filter_cons]

lemma noNl_emoji (i : Issue) : noNl (get_status_emoji i) := by
  unfold get_status_emoji
  cases hm : assocFind i.state STATUS_EMOJIS with
  | none => simp [noNl]
  | some v =>
    have hv : (i.state, v) ∈ STATUS_EMOJIS := assocFind_mem hm
    have hall : ∀ p ∈ STATUS_EMOJIS, noNl p.2 := by decide
    simpa using hall _ hv

lemma domainOfLabels_mem : ∀ {ls : List Chars} {d : Chars},
    domainOfLabels ls = some d → d ∈ DOMAIN_AREAS := by
  intro ls
  induction ls with
  | nil => intro d h; simp [domainOfLabels] at h
  | cons l rest ih =>
    intro d h
    simp only [domainOfLabels] at h
    by_cases hl : l ∈ DOMAIN_AREAS
    · rw [if_pos hl] at h
      simp only [Option.some.injEq] at h
      exact h ▸ hl
    · rw [if_neg hl] at h
      exact ih h

lemma noNl_domain {i : Issue} {d : Chars} (h : find_domain_area i = some d) :
    noNl d :=
  (show ∀ x ∈ DOMAIN_AREAS, noNl x by decide) _ (domainOfLabels_mem h)

lemma noNl_resolveUrl {i : Issue} (h : cleanIssue i) : noNl (resolveUrl i) := by
  obtain ⟨ht, hid, hu⟩ := h
  unfold resolveUrl
  cases hurl : i.url with
  | none => exact noNl_append (noNl_append (by decide) (by decide)) hid
  | some u =>
    rw [hurl] at hu
    show noNl (if u = [] then LINEAR_WORKSPACE_URL ++ "/issue/".data ++ i.identifier else u)
    by_cases he : u = []
    · rw [if_pos he]
      exact noNl_append (noNl_append (by decide) (by decide)) hid
    · rw [if_neg he]
      exact hu

lemma noNl_bullet_core {i : Issue} (h : cleanIssue i) :
    noNl (bullet_core (mkEntry i)) := by
  have hu : noNl (resolveUrl i) := noNl_resolveUrl h
  have hsuffix : noNl (match (mkEntry i).domain_area with
      | some d => " [".data ++ d ++ "]".data
      | none => ([] : Chars)) := by
    cases hd : (mkEntry i).domain_area with
    | none => simp [noNl]
    | some d =>
      show noNl (" [".data ++ d ++ "]".data)
      exact noNl_append (noNl_append (by decide) (noNl_domain hd)) (by decide)
  unfold bullet_core bullet_body
  exact noNl_append (by decide)
    (noNl_append
      (noNl_append
        (noNl_append
          (noNl_append
            (noNl_append
              (noNl_append
                (noNl_append
                  (noNl_append (noNl_emoji i) (by decide))
                  h.1)
                (by decide))
              h.2.1)
            (by decide))
          hu)
        (by decide))
      hsuffix)

lemma split_bullets : ∀ (es : List Entry) (rest : Chars),
    (∀ e ∈ es, noNl (bullet_core e)) →
    splitOnChar '\n' ((es.map render_bullet).flatten ++ '\n' :: rest) =
      es.map bullet_core ++ [] :: splitOnChar '\n' rest := by
  intro es
  induction es with
  | nil =>
    intro rest _
    simp [splitOnChar_cons_self]
  | cons e es ih =>
    intro rest h
    have he : noNl (bullet_core e) := h e (by simp)
    have hstr : ((e :: es).map render_bullet).flatten ++ '\n' :: rest =
        bullet_core e ++ '\n' :: ((es.map render_bullet).flatten ++ '\n' :: rest) := by
      simp [render_bullet, List.append_assoc]
    rw [hstr, splitOnChar_append_cons _ (noNl_ne he),
      ih rest (fun x hx => h x (by simp [hx]))]
    simp

lemma split_chunks : ∀ (cats : List (Chars × List Entry)),
    (∀ p ∈ cats, noNl p.1) →
    (∀ p ∈ cats, ∀ e ∈ p.2, noNl (bullet_core e)) →
    splitOnChar '\n' ((cats.map (fun p => render_category p.1 p.2)).flatten) =
      (cats.filter (fun p => !(p.2.isEmpty))).flatMap
        (fun p => ("## ".data ++ p.1) :: [] :: (p.2.map bullet_core ++ [[]])) ++ [[]] := by
  intro cats
  induction cats with
  | nil => intro _ _; simp [splitOnChar]
  | cons p cats ih =>
    intro hk he
    obtain ⟨k, es⟩ := p
    have ih2 := ih (fun q hq => hk q (by simp [hq]))
      (fun q hq => he q (by simp [hq]))
    by_cases hes : es.isEmpty
    · have h0 : render_category k es = [] := by simp [render_category, hes]
      simp only [List.map_cons, List.flatten_cons, h0, List.nil_append,
        List.filter_cons]
      simpa [hes] using ih2
    · have hkk : noNl k := hk (k, es) (by simp)
      have hstr : render_category k es ++ (cats.map (fun p => render_category p.1 p.2)).flatten =
          ("## ".data ++ k) ++ '\n' :: ('\n' ::
            ((es.map render_bullet).flatten ++ '\n' ::
              (cats.map (fun p => render_category p.1 p.2)).flatten)) := by
        simp [render_category, hes, List.append_assoc]
      simp only [List.map_cons, List.flatten_cons]
      rw [hstr,
        splitOnChar_append_cons _ (noNl_ne (noNl_append (by decide) hkk)),
        splitOnChar_cons_self,
        split_bullets es _ (fun e heq => he (k, es) (by simp) e heq),
        ih2]
      simp [List.filter_cons, hes]

lemma buckets_transport : ∀ (keys : List Chars) (B : Chars → List Issue),
    ((keys.map (fun k => (k, (B k).map mkEntry))).filter
        (fun p => !(p.2.isEmpty))).flatMap
      (fun p => ("## ".data ++ p.1) :: [] :: (p.2.map bullet_core ++ [[]])) =
    ((keys.map (fun k => (k, B k))).filter (fun p => !(p.2.isEmpty))).flatMap
      (fun p => ("## ".data ++ p.1) :: [] ::
        (p.2.map (fun i => bullet_core (mkEntry i)) ++ [[]])) := by
  intro keys B
  induction keys with
  | nil => rfl
  | cons k keys ih =>
    simp only [List.map_cons, List.filter_cons]
    cases hbk : B k with
    | nil => simpa using ih
    | cons i is =>
      simp only [List.map_cons, List.isEmpty_cons, Bool.not_false, if_pos,
        List.flatMap_cons]
      rw [ih]
      simp [List.map_map, Function.comp]

lemma split_generate (issues : List Issue) (v t : Chars) (h1 : issues ≠ [])
    (h2 : ∀ i ∈ issues, cleanIssue i) (hv : noNl v) (ht : noNl t) :
    splitOnChar '\n' (generate_release_notes issues v t) =
      header_lines v t ++ body_lines issues ++ [[]] := by
  have hgen : generate_release_notes issues v t =
      ("# 🚀 Release Notes - ".data ++ v) ++ '\n' ::
        ('\n' :: (("*Generated on ".data ++ t ++ "*".data) ++ '\n' ::
          ('\n' :: (((issues.filter (fun i => !(should_exclude_issue i))
              |> categorize).map (fun p => render_category p.1 p.2)).flatten)))) := by
    simp [generate_release_notes, h1, List.append_assoc]
  rw [hgen,
    splitOnChar_append_cons _ (noNl_ne (noNl_append (by decide) hv)),
    splitOnChar_cons_self,
    splitOnChar_append_cons _
      (noNl_ne (noNl_append (noNl_append (by decide) ht) (by decide))),
    splitOnChar_cons_self]
  rw [categorize_eq]
  rw [split_chunks _
    (by
      intro p hp
      obtain ⟨k, hk, rfl⟩ := List.mem_map.mp hp
      exact (show ∀ x ∈ CATEGORY_KEYS, noNl x by decide) k hk)
    (by
      intro p hp e heq
      obtain ⟨k, hk, rfl⟩ := List.mem_map.mp hp
      simp only at heq
      obtain ⟨i, hi, rfl⟩ := List.mem_map.mp heq
      have hi2 : i ∈ issues := List.mem_of_mem_filter (List.mem_of_mem_filter hi)
      exact noNl_bullet_core (h2 i hi2))]
  rw [buckets_transport CATEGORY_KEYS
    (fun k => (issues.filter (fun i => !(should_exclude_issue i))).filter
      (fun i => decide (determine_category i = k)))]
  simp [header_lines, body_lines, buckets]

lemma filterMap_bullet_lines : ∀ (is : List Issue),
    (is.map (fun i => bullet_core (mkEntry i))).filterMap line_to_block =
      is.map (fun i => Block.bullet (parse_rich_text (bullet_body (mkEntry i)))) := by
  intro is
  induction is with
  | nil => rfl
  | cons i is ih =>
    simp only [List.map_cons, List.filterMap_cons, line_to_block_bullet]
    rw [ih]

lemma filterMap_chunk_lines : ∀ (ps : List (Chars × List Issue)),
    (∀ p ∈ ps, p.1 ∈ CATEGORY_KEYS) →
    (ps.flatMap (fun p => ("## ".data ++ p.1) :: [] ::
        (p.2.map (fun i => bullet_core (mkEntry i)) ++ [[]]))).filterMap
      line_to_block =
      ps.flatMap (fun p => Block.heading 2 (parse_rich_text p.1) ::
        p.2.map (fun i => Block.bullet (parse_rich_text (bullet_body (mkEntry i))))) := by
  intro ps
  induction ps with
  | nil => intro _; rfl
  | cons p ps ih =>
    intro h
    simp only [List.flatMap_cons, List.filterMap_append, List.filterMap_cons,
      line_to_block_h2_key p.1 (h p (by simp)), line_to_block_nil,
      filterMap_bullet_lines, ih (fun q hq => h q (by simp [hq]))]
    simp [line_to_block_nil]

lemma filterMap_body_lines (issues : List Issue) :
    (body_lines issues).filterMap line_to_block = body_blocks issues := by
  unfold body_lines body_blocks
  apply filterMap_chunk_lines
  intro p hp
  obtain ⟨k, hk, rfl⟩ := List.mem_map.mp (List.mem_of_mem_filter hp)
  exact hk

/-- C4 (amended): line-level decomposition of the rendered markdown.  The
output splits into the level-1 heading line, a blank line, the timestamp
line, a blank line, and then exactly one level-2 heading line per category
with at least one non-excluded issue, in the fixed enumeration order with
Other Changes last, each followed by a blank line, one bullet line per
issue of that category in input order, and a closing blank line — provided
the issue titles, identifiers and URLs, the release identifier and the
timestamp contain no newline character and the issue list is non-empty. -/
theorem c4_markdown_sections (issues : List Issue) (v t : Chars)
    (h1 : issues ≠ []) (h2 : ∀ i ∈ issues, cleanIssue i)
    (hv : noNl v) (ht : noNl t) :
    splitOnChar '\n' (generate_release_notes issues v t) =
      header_lines v t ++ body_lines issues ++ [[]] :=
  split_generate issues v t h1 h2 hv ht

/-- C4 witness: the section decomposition instantiated at a concrete
issue list, with the hypotheses discharged by evaluation. -/
theorem c4_witness :
    splitOnChar '\n' (generate_release_notes [demoIssue] "1.0".data "TS".data) =
      header_lines "1.0".data "TS".data ++ body_lines [demoIssue] ++ [[]] :=
  c4_markdown_sections [demoIssue] "1.0".data "TS".data (by decide) (by decide)
    (by decide) (by decide)

/-- C4 counterexample: an issue title containing a newline followed by a
heading marker makes the line level-2-heading New Features appear in the
rendered markdown although no issue of the input has that category, so the
claim as stated fails for arbitrary issue lists. -/
theorem c4_counterexample :
    ("## ✨ New Features".data ∈
        splitOnChar '\n' (generate_release_notes [badIssue] "1.0".data "TS".data)) ∧
      (∀ i ∈ [badIssue], ¬(determine_category i = "✨ New Features".data)) := by
  decide

/-- C1 (amended): converting the rendered markdown with the block
converter yields a level-1 heading block, a paragraph block (the timestamp
line), and then exactly one Heading(2) block per non-empty category, in the
fixed category enumeration order, each followed by the bullet-item blocks
of that category's issues in input order — provided the issue titles,
identifiers and URLs, the release identifier and the timestamp contain no
newline character and the issue list is non-empty. -/
theorem c1_round_trip_blocks (issues : List Issue) (v t : Chars)
    (h1 : issues ≠ []) (h2 : ∀ i ∈ issues, cleanIssue i)
    (hv : noNl v) (ht : noNl t) :
    ∃ rt1 rt2, markdown_to_notion_blocks (generate_release_notes issues v t) =
      Block.heading 1 rt1 :: Block.para rt2 :: body_blocks issues := by
  obtain ⟨rt1, hrt1⟩ := line_to_block_h1v v
  refine ⟨rt1, parse_rich_text ("*Generated on ".data ++ t ++ "*".data), ?_⟩
  unfold markdown_to_notion_blocks
  rw [split_generate issues v t h1 h2 hv ht]
  have hhead : (header_lines v t).filterMap line_to_block =
      [Block.heading 1 rt1,
        Block.para (parse_rich_text ("*Generated on ".data ++ t ++ "*".data))] := by
    rw [header_lines, List.filterMap_cons, hrt1, List.filterMap_cons,
      line_to_block_nil, List.filterMap_cons, line_to_block_ts,
      List.filterMap_cons, line_to_block_nil, List.filterMap_nil]
  rw [List.filterMap_append, List.filterMap_append, hhead,
    filterMap_body_lines,
    show (([[]] : List Chars).filterMap line_to_block) = [] from rfl]
  simp

/-- C1 witness: the round-trip theorem instantiated at a concrete issue
list, with the hypotheses discharged by evaluation. -/
theorem c1_witness :
    ∃ rt1 rt2, markdown_to_notion_blocks
        (generate_release_notes [demoIssue] "1.0".data "TS".data) =
      Block.heading 1 rt1 :: Block.para rt2 :: body_blocks [demoIssue] :=
  c1_round_trip_blocks [demoIssue] "1.0".data "TS".data (by decide) (by decide)
    (by decide) (by decide)

/-- C1 counterexample: with a newline-injecting title the converted
document contains two Heading(2) blocks although exactly one category is
non-empty, so the claim as stated fails for arbitrary issue lists. -/
theorem c1_counterexample :
    ((markdown_to_notion_blocks
        (generate_release_notes [badIssue] "1.0".data "TS".data)).countP
          isHeading2 = 2) ∧
      ((buckets [badIssue]).filter (fun p => !(p.2.isEmpty))).length = 1 := by
  decide

/-- C2: the single claimed input line converts to exactly one BulletItem
block whose rich-text spans are, in order: the plain status glyph, the
bold title, a plain opening run, the link span with the claimed content
and URL, and the plain closing run with the domain tag. -/
theorem c2_example_spans :
    markdown_to_notion_blocks
        "- ✅ **Fix login bug** ([GP-1](https://x/GP-1)) [Subjects]".data =
      [Block.bullet [plainSpan "✅ ".data, boldSpan "Fix login bug".data,
        plainSpan " (".data, linkSpan "GP-1".data "https://x/GP-1".data,
        plainSpan ") [Subjects]".data]] := by
  decide

/-- C5: an issue whose lifecycle state is Canceled, Cancelled or
Duplicate contributes nothing to the rendered markdown: removing it from
anywhere in an issue list that stays non-empty leaves the renderer output
unchanged, because such issues are filtered out before categorization. -/
theorem c5_excluded_never_rendered (pre post : List Issue) (i : Issue)
    (v t : Chars) (hexc : should_exclude_issue i = true)
    (hne : pre ++ post ≠ []) :
    generate_release_notes (pre ++ i :: post) v t =
      generate_release_notes (pre ++ post) v t := by
  have hne2 : pre ++ i :: post ≠ [] := by
    cases pre <;> simp
  unfold generate_release_notes
  rw [if_neg hne2, if_neg hne]
  have hfil : (pre ++ i :: post).filter (fun x => !(should_exclude_issue x)) =
      (pre ++ post).filter (fun x => !(should_exclude_issue x)) := by
    simp [List.filter_append, List.filter_cons, hexc]
  rw [hfil]

/-- C5 witness: the exclusion theorem instantiated at a concrete list
containing a Duplicate issue. -/
theorem c5_witness :
    generate_release_notes ([demoIssue] ++ excludedIssue :: []) "1.0".data
        "TS".data =
      generate_release_notes ([demoIssue] ++ []) "1.0".data "TS".data :=
  c5_excluded_never_rendered [demoIssue] [] excludedIssue "1.0".data "TS".data
    (by decide) (by decide)

/-- C6: for the empty issue list and any release identifier and
timestamp, the renderer returns exactly the sentinel string. -/
theorem c6_empty_sentinel (v t : Chars) :
    generate_release_notes [] v t = "No issues found for this release.".data :=
  rfl

lemma parse_inline_fmt_succ (f : Nat) (c : Char) (s : Chars) :
    parse_inline_fmt (f + 1) (c :: s) =
      match searchBold (c :: s) with
      | none => parse_italic_formatting (c :: s)
      | some (b, t, r) =>
        parse_italic_formatting b ++ [boldSpan t] ++ parse_inline_fmt f r := rfl

lemma parse_italic_fmt_succ (f : Nat) (c : Char) (s : Chars) :
    parse_italic_fmt (f + 1) (c :: s) =
      match searchItalic (c :: s) with
      | none => [plainSpan (c :: s)]
      | some (b, t, r) =>
        (if b = [] then [] else [plainSpan b]) ++ [italicSpan t] ++
          parse_italic_fmt f r := rfl

/-- C8: rich-text parsing is a total function (it cannot raise), and
when a line admits no balanced link, bold or italic match, the whole line
content becomes a single plain span, keeping every unmatched bracket,
parenthesis and asterisk as a literal character. -/
theorem c8_no_match_single_plain_span (s : Chars) (hne : s ≠ [])
    (hL : searchLink s = none) (hB : searchBold s = none)
    (hI : searchItalic s = none) :
    parse_rich_text s = [plainSpan s] := by
  obtain ⟨c, s0, rfl⟩ := List.exists_cons_of_ne_nil hne
  show parse_rich_f ((c :: s0).length + 1) (c :: s0) = _
  rw [show (c :: s0).length + 1 = s0.length + 1 + 1 from by simp,
    parse_rich_f_succ, hL]
  show parse_inline_fmt ((c :: s0).length + 1) (c :: s0) = _
  rw [show (c :: s0).length + 1 = s0.length + 1 + 1 from by simp,
    parse_inline_fmt_succ, hB]
  show parse_italic_fmt ((c :: s0).length + 1) (c :: s0) = _
  rw [show (c :: s0).length + 1 = s0.length + 1 + 1 from by simp,
    parse_italic_fmt_succ, hI]

/-- C8 witness: a line with unmatched bracket, parenthesis and asterisk
parses to a single plain span equal to the line itself. -/
theorem c8_witness :
    "a [b (c *".data ≠ [] ∧ searchLink "a [b (c *".data = none ∧
      searchBold "a [b (c *".data = none ∧
      searchItalic "a [b (c *".data = none ∧
      parse_rich_text "a [b (c *".data = [plainSpan "a [b (c *".data] :=
  ⟨by decide, by decide, by decide, by decide,
    c8_no_match_single_plain_span _ (by decide) (by decide) (by decide)
      (by decide)⟩

/-- C9: with the clock reading modelled as the explicit timestamp
parameter, two renderer calls with the same issue list, the same release
identifier and a frozen (equal) timestamp return byte-for-byte identical
strings; the renderer is a pure function of these inputs. -/
theorem c9_frozen_timestamp_reproducible (issues : List Issue) (v t1 t2 : Chars)
    (h : t1 = t2) :
    generate_release_notes issues v t1 = generate_release_notes issues v t2 := by
  rw [h]

/-- C9 witness: the reproducibility theorem at a concrete issue list
and frozen timestamp. -/
theorem c9_witness :
    generate_release_notes [demoIssue] "1.0".data "2024-01-01 12:00:00".data =
      generate_release_notes [demoIssue] "1.0".data "2024-01-01 12:00:00".data :=
  c9_frozen_timestamp_reproducible [demoIssue] "1.0".data
    "2024-01-01 12:00:00".data "2024-01-01 12:00:00".data rfl

/-- C10: for a non-empty issue list in which every issue has an excluded
lifecycle state, the renderer does not return the sentinel: because the
empty-input check precedes exclusion filtering, it returns exactly the
level-1 release heading and the timestamp line, with no category sections
and no issue bullets. -/
theorem c10_all_excluded_header_only (issues : List Issue) (v t : Chars)
    (h1 : issues ≠ []) (h2 : ∀ i ∈ issues, should_exclude_issue i = true) :
    generate_release_notes issues v t =
      "# 🚀 Release Notes - ".data ++ v ++ "\n\n*Generated on ".data ++ t ++
        "*\n\n".data ∧
      generate_release_notes issues v t ≠
        "No issues found for this release.".data := by
  have hfil : issues.filter (fun i => !(should_exclude_issue i)) = [] := by
    rw [List.filter_eq_nil_iff]
    intro i hi
    simp [h2 i hi]
  have heq : generate_release_notes issues v t =
      "# 🚀 Release Notes - ".data ++ v ++ "\n\n*Generated on ".data ++ t ++
        "*\n\n".data := by
    unfold generate_release_notes
    rw [if_neg h1, hfil]
    have hz : ((categorize ([] : List Issue)).map
        (fun p => render_category p.1 p.2)).flatten = ([] : Chars) := rfl
    rw [hz]
    simp [List.append_assoc,
      show "\n\n*Generated on ".data = '\n' :: '\n' :: "*Generated on ".data
        from rfl]
  refine ⟨heq, ?_⟩
  rw [heq]
  intro hc
  rw [show "# 🚀 Release Notes - ".data =
      '#' :: " 🚀 Release Notes - ".data from rfl,
    show "No issues found for this release.".data =
      'N' :: "o issues found for this release.".data from rfl] at hc
  simp [List.cons_append] at hc

/-- C10 witness: the header-only theorem at a concrete all-excluded
list. -/
theorem c10_witness :
    (generate_release_notes [excludedIssue] "1.0".data "TS".data =
      "# 🚀 Release Notes - ".data ++ "1.0".data ++
        "\n\n*Generated on ".data ++ "TS".data ++ "*\n\n".data) ∧
      generate_release_notes [excludedIssue] "1.0".data "TS".data ≠
        "No issues found for this release.".data :=
  c10_all_excluded_header_only [excludedIssue] "1.0".data "TS".data
    (by decide) (by decide)

lemma categoryOfLabels_of_none : ∀ {labels : List Chars},
    (∀ l ∈ labels, assocFind l CATEGORY_MAPPINGS = none) →
    categoryOfLabels labels = "Other Changes".data := by
  intro labels
  induction labels with
  | nil => intro _; rfl
  | cons l rest ih =>
    intro h
    simp only [categoryOfLabels, h l (by simp)]
    exact ih (fun x hx => h x (by simp [hx]))

lemma categoryOfLabels_of_unique : ∀ {labels : List Chars} {k0 v0 : Chars},
    (∀ l1 ∈ labels, ∀ l2 ∈ labels,
      is_category_label l1 → is_category_label l2 → l1 = l2) →
    k0 ∈ labels → assocFind k0 CATEGORY_MAPPINGS = some v0 →
    categoryOfLabels labels = v0 := by
  intro labels
  induction labels with
  | nil => intro k0 v0 _ hk _; simp at hk
  | cons l rest ih =>
    intro k0 v0 h hk hv
    simp only [categoryOfLabels]
    cases hm : assocFind l CATEGORY_MAPPINGS with
    | some c =>
      have hlk : l = k0 :=
        h l (by simp) k0 hk (by simp [is_category_label, hm])
          (by simp [is_category_label, hv])
      rw [hlk] at hm
      rw [hv] at hm
      exact (Option.some.injEq .. ▸ hm).symm
    | none =>
      have hne : ¬(k0 = l) := fun he => by
        rw [he] at hv
        rw [hv] at hm
        exact Option.noConfusion hm
      have hk2 : k0 ∈ rest := by
        rcases List.mem_cons.mp hk with he | hm2
        · exact absurd he hne
        · exact hm2
      exact ih (fun x hx y hy => h x (by simp [hx]) y (by simp [hy])) hk2 hv

lemma categoryOfLabels_eq_spec {labels : List Chars}
    (h : ∀ l1 ∈ labels, ∀ l2 ∈ labels,
      is_category_label l1 → is_category_label l2 → l1 = l2) :
    categoryOfLabels labels = spec_classify_category labels := by
  unfold spec_classify_category
  cases hf : CATEGORY_MAPPINGS.find? (fun p => decide (p.1 ∈ labels)) with
  | none =>
    simp only [Option.map_none', Option.getD_none]
    apply categoryOfLabels_of_none
    intro l hl
    cases hm : assocFind l CATEGORY_MAPPINGS with
    | none => rfl
    | some v =>
      have hmem := assocFind_mem hm
      have hnp := List.find?_eq_none.mp hf _ hmem
      simp at hnp
      exact absurd hl hnp
  | some p =>
    obtain ⟨k0, v0⟩ := p
    have hp := List.find?_some hf
    have hmem := List.mem_of_find?_eq_some hf
    simp at hp
    have hv0 : assocFind k0 CATEGORY_MAPPINGS = some v0 :=
      assocFind_eq_of_nodup (by decide) hmem
    simp only [Option.map_some', Option.getD_some]
    exact categoryOfLabels_of_unique h hp hv0

/-- C3 (amended): when at most one of the issue's labels is a key of
the category table — the only case the data model expects — the category
returned by determine_category equals the first-match scan over the table
in its declaration order, and the result depends only on which labels the
issue has, not on the order of its label list. -/
theorem c3_first_match_table_order (issue : Issue)
    (h : ∀ l1 ∈ issue.labels, ∀ l2 ∈ issue.labels,
      is_category_label l1 → is_category_label l2 → l1 = l2) :
    determine_category issue = spec_classify_category issue.labels ∧
      ∀ labels2 : List Chars, (∀ x, x ∈ labels2 ↔ x ∈ issue.labels) →
        categoryOfLabels labels2 = categoryOfLabels issue.labels := by
  constructor
  · exact categoryOfLabels_eq_spec h
  · intro labels2 hmem
    have h2 : ∀ l1 ∈ labels2, ∀ l2 ∈ labels2,
        is_category_label l1 → is_category_label l2 → l1 = l2 :=
      fun l1 h1 l2 hl2 => h l1 ((hmem l1).mp h1) l2 ((hmem l2).mp hl2)
    rw [categoryOfLabels_eq_spec h2, categoryOfLabels_eq_spec h]
    unfold spec_classify_category
    have hpred : (fun p : Chars × Chars => decide (p.1 ∈ labels2)) =
        (fun p : Chars × Chars => decide (p.1 ∈ issue.labels)) := by
      funext p
      exact decide_eq_decide.mpr (hmem p.1)
    rw [hpred]

/-- C3 counterexample: with the label list Feature then Bug, the code
returns New Features although the first table entry whose label is present
is Bug (so the table-order claim fails), and reversing the issue's label
list changes the result (so the order-independence claim fails). -/
theorem c3_counterexample :
    determine_category issueFB = "✨ New Features".data ∧
      spec_classify_category issueFB.labels = "🐛 Bug Fixes".data ∧
      issueFB.labels.reverse = issueBF.labels ∧
      ¬(determine_category issueFB = determine_category issueBF) := by
  decide

/-- C3 witness: the amended theorem at a concrete issue with a single
category label. -/
theorem c3_witness :
    determine_category demoIssue = spec_classify_category demoIssue.labels ∧
      ∀ labels2 : List Chars, (∀ x, x ∈ labels2 ↔ x ∈ demoIssue.labels) →
        categoryOfLabels labels2 = categoryOfLabels demoIssue.labels :=
  c3_first_match_table_order demoIssue (by decide)

lemma classify_agree (l : Chars) : classify_line l = claim_classify l := by
  by_cases h4 : l.take 4 = "### ".data
  · obtain ⟨l4, rfl⟩ : ∃ l4, l = '#' :: '#' :: '#' :: ' ' :: l4 :=
      ⟨l.drop 4, by
        conv_lhs => rw [← List.take_append_drop 4 l]
        rw [h4]
        simp⟩
    simp [classify_line, claim_classify]
  · by_cases h3 : l.take 3 = "## ".data
    · obtain ⟨l3, rfl⟩ : ∃ l3, l = '#' :: '#' :: ' ' :: l3 :=
        ⟨l.drop 3, by
          conv_lhs => rw [← List.take_append_drop 3 l]
          rw [h3]
          simp⟩
      simp [classify_line, claim_classify]
    · by_cases h2 : l.take 2 = "# ".data
      · obtain ⟨l2, rfl⟩ : ∃ l2, l = '#' :: ' ' :: l2 :=
          ⟨l.drop 2, by
            conv_lhs => rw [← List.take_append_drop 2 l]
            rw [h2]
            simp⟩
        simp [classify_line, claim_classify]
      · by_cases hd : l.take 2 = "- ".data
        · obtain ⟨l2, rfl⟩ : ∃ l2, l = '-' :: ' ' :: l2 :=
            ⟨l.drop 2, by
              conv_lhs => rw [← List.take_append_drop 2 l]
              rw [hd]
              simp⟩
          have hnum : matchNumAt ('-' :: ' ' :: l2) = none := by
            simp [matchNumAt, List.takeWhile_cons,
              show ('-').isDigit = false from rfl]
          simp [classify_line, claim_classify, hnum]
        · cases hm : matchNumAt l with
          | some r => simp [classify_line, claim_classify, h4, h3, h2, hd, hm]
          | none => simp [classify_line, claim_classify, h4, h3, h2, hd, hm]

/-- C7 (amended): the block converter equals the claimed per-line
classification by prefix precedence — three hashes, then two, then one,
then the numbered-list pattern, then the bullet marker, else paragraph —
applied to each whitespace-stripped line with the matched prefix removed
before rich-text parsing, skipping blank lines and keeping line order;
amended so that the numbered-list pattern requires a literal space after
the period (the code's pattern) rather than arbitrary whitespace. -/
theorem c7_line_classification (md : Chars) :
    markdown_to_notion_blocks md =
      (splitOnChar '\n' md).filterMap (fun line =>
        if pyStrip line = [] then none else some (claim_classify (pyStrip line))) := by
  unfold markdown_to_notion_blocks
  have hfun : line_to_block = (fun line =>
      if pyStrip line = [] then none
      else some (claim_classify (pyStrip line))) := by
    funext line
    unfold line_to_block
    by_cases h : pyStrip line = []
    · simp [h]
    · simp [h, classify_agree]
  rw [hfun]

/-- C7 counterexample: a line with a tab after the period matches the
claimed digits-period-whitespace pattern, yet the code classifies it as a
paragraph rather than a NumberedItem, refuting the claim as stated. -/
theorem c7_counterexample :
    claimNumPattern tabNumLine = true ∧
      markdown_to_notion_blocks tabNumLine =
        [Block.para [plainSpan tabNumLine]] := by
  decide
